import Mathlib

/-!
Verification of the structured-feedback extractor of `src/app.py`
(the body of `evaluate_argument`, lines 122–135).

The Python code runs four `re.search` calls over the AI reply text
`ai_output` and builds a four-field record:

* `re.search(r"\*\*Rationality Score:\*\* (\d+\.\d+|\d+)", ai_output)` and
  `float(...)` with fallback `0.5`;
* `re.search(r"\*\*Reasoning for Score:\*\*\s*(.*?)(?=\*\*Feedback:\*\*|\Z)", ai_output, re.DOTALL)`
  then `.strip()`, fallback `"No reasoning provided."`;
* `re.search(r"\*\*Feedback:\*\*\s*(.*?)(?=\*\*Improved Argument:\*\*|\Z)", ai_output, re.DOTALL)`
  then `.strip()`, fallback `"No feedback provided."`;
* `re.search(r"\*\*Improved Argument:\*\*\s*(.*)", ai_output, re.DOTALL)`
  then `.strip()`, fallback `"No improved argument provided."`.

Modelling choices, faithful to the source on its actual inputs:

* Strings are `List Char`.  Whitespace (`\s` in the regexes, and the set
  removed by `str.strip()`) is modelled as the six ASCII whitespace
  characters, and `\d` as the ASCII digits, which is what these regexes
  see on ASCII text.
* `float(...)` applied to a group matching `\d+\.\d+|\d+` is modelled
  exactly over `ℚ`: such a token denotes a small decimal numeral, and the
  claims only compare scores against decimal literals.
* Each `re.search` is modelled by its observable behaviour on these
  particular patterns: `findSub` returns the index of the leftmost
  occurrence of a literal; the lazy group `(.*?)` followed by the
  lookahead `(?=M|\Z)` yields the text up to the next occurrence of `M`
  (or the end of input); `findScore` scans left to right for the leftmost
  position where the score marker is followed by a numeral, exactly as
  `re.search` does for the alternation-free literal-then-group pattern.
-/

namespace DebateMain

/-- ASCII whitespace, the characters matched by Python's `\s` (and removed
by `str.strip()`) on ASCII text: space, tab, newline, carriage return,
vertical tab, form feed. -/
def pySpace (c : Char) : Bool :=
  c == ' ' || c == '\t' || c == '\n' || c == '\r' ||
    c == Char.ofNat 11 || c == Char.ofNat 12

/-- Python `str.strip()`: remove leading and trailing whitespace. -/
def stripChars (l : List Char) : List Char :=
  ((l.dropWhile pySpace).reverse.dropWhile pySpace).reverse

/-- `matchesAt needle hay`: the literal `needle` occurs at the very front
of `hay`. -/
def matchesAt : List Char → List Char → Bool
  | [], _ => true
  | _ :: _, [] => false
  | n :: ns, c :: cs => n == c && matchesAt ns cs

/-- Index of the leftmost occurrence of the literal `needle` in the
haystack, as found by `re.search` on a literal pattern. -/
def findSub (needle : List Char) : List Char → Option Nat
  | [] => if needle.isEmpty then some 0 else none
  | c :: rest =>
    if matchesAt needle (c :: rest) then some 0
    else Option.map (fun k => k + 1) (findSub needle rest)

/-- Value of a run of ASCII digits read as a decimal numeral. -/
def digitsToNat (l : List Char) : Nat :=
  l.foldl (fun a c => 10 * a + (c.toNat - 48)) 0

/-- The regex group `(\d+\.\d+|\d+)` anchored at the front of `l`,
followed by `float(...)`: greedy digits, then optionally a dot and at
least one more digit (first alternative), else just the digits (second
alternative); `none` when no digit starts `l`, which makes the whole
`re.search` pattern fail at this position. -/
def matchNumber (l : List Char) : Option ℚ :=
  let d1 := l.takeWhile Char.isDigit
  if d1.isEmpty then none
  else
    match l.drop d1.length with
    | '.' :: r2 =>
      let d2 := r2.takeWhile Char.isDigit
      if d2.isEmpty then some (digitsToNat d1 : ℚ)
      else some ((digitsToNat d1 : ℚ) + (digitsToNat d2 : ℚ) / (10 : ℚ) ^ d2.length)
    | _ => some (digitsToNat d1 : ℚ)

/-- The literal `**Rationality Score:**` (the score marker without its
trailing space). -/
def scoreMkBare : List Char := "**Rationality Score:**".toList

/-- The literal `**Rationality Score:** ` exactly as it appears in the
score regex: the bare marker followed by a single space. -/
def scoreMkSp : List Char := "**Rationality Score:** ".toList

/-- The literal `**Reasoning for Score:**`. -/
def reasoningMk : List Char := "**Reasoning for Score:**".toList

/-- The literal `**Feedback:**`. -/
def feedbackMk : List Char := "**Feedback:**".toList

/-- The literal `**Improved Argument:**`. -/
def improvedMk : List Char := "**Improved Argument:**".toList

/-- Fallback for `reason_for_score`. -/
def defaultReason : List Char := "No reasoning provided.".toList

/-- Fallback for `feedback`. -/
def defaultFeedback : List Char := "No feedback provided.".toList

/-- Fallback for `improved_argument`. -/
def defaultImproved : List Char := "No improved argument provided.".toList

/-- `re.search(r"\*\*Rationality Score:\*\* (\d+\.\d+|\d+)", s)` followed
by `float(group(1))`: scan left to right; at each position the literal
(including its single trailing space) must match and a numeral must follow,
otherwise the scan continues at the next position. -/
def findScore : List Char → Option ℚ
  | [] => none
  | c :: rest =>
    if matchesAt scoreMkSp (c :: rest) then
      match matchNumber ((c :: rest).drop scoreMkSp.length) with
      | some q => some q
      | none => findScore rest
    else findScore rest

/-- One text-field extraction:
`re.search(marker + r"\s*(.*?)(?=next|\Z)", s, re.DOTALL)` (for
`next? = some nm`) or `re.search(marker + r"\s*(.*)", s, re.DOTALL)`
(for `next? = none`), the group then stripped, with fallback `dflt` when
the marker is absent.  After the leftmost occurrence of `marker`, the
greedy `\s*` consumes the maximal whitespace run, and the lazy `(.*?)`
stops at the first position where the lookahead literal starts (or at the
end of input, via the `\Z` alternative). -/
def extractSection (marker : List Char) (next? : Option (List Char))
    (dflt : List Char) (hay : List Char) : List Char :=
  match findSub marker hay with
  | none => dflt
  | some i =>
    let body := (hay.drop (i + marker.length)).dropWhile pySpace
    match next? with
    | none => stripChars body
    | some nm =>
      match findSub nm body with
      | some j => stripChars (body.take j)
      | none => stripChars body

/-- The record assembled by `evaluate_argument` from the four extractions
(the JSON object of lines 140–145). -/
structure StructuredFeedback where
  rationality_score : ℚ
  reason_for_score : List Char
  feedback : List Char
  improved_argument : List Char
deriving DecidableEq

/-- The extraction logic of `evaluate_argument` (src/app.py lines
122–135): four regex searches over the reply text with per-field
fallbacks. -/
def evaluate_argument (ai_output : List Char) : StructuredFeedback :=
  { rationality_score :=
      match findScore ai_output with
      | some q => q
      | none => 1/2
    reason_for_score := extractSection reasoningMk (some feedbackMk) defaultReason ai_output
    feedback := extractSection feedbackMk (some improvedMk) defaultFeedback ai_output
    improved_argument := extractSection improvedMk none defaultImproved ai_output }

/-- The spec's notion of the "nearest valid forward span": the text of `t`
up to the next forward occurrence of the terminating marker `term`, or all
of `t` when no such occurrence exists.  Written from the spec's words, to
be compared with what `extractSection` computes. -/
def forwardSpan (term : List Char) (t : List Char) : List Char :=
  match findSub term t with
  | some j => t.take j
  | none => t

/-- The spec's worked example reply (testable property 5 of the spec). -/
def c3input : List Char :=
  "**Rationality Score:** 0.9  **Reasoning for Score:** Good logic **Feedback:** Add evidence **Improved Argument:** Refined text.".toList

/-- A reply carrying only the score marker and a numeral. -/
def c5input : List Char := "**Rationality Score:** 0.8".toList

/-- A reply with an out-of-range score token. -/
def c7input : List Char := "**Rationality Score:** 7.5".toList

/-- A reply with a negative number after the score marker. -/
def c8input : List Char := "**Rationality Score:** -0.5".toList

/-- A reply whose three markers appear in reversed order. -/
def c6input : List Char :=
  "**Improved Argument:** Z **Feedback:** Y **Reasoning for Score:** X".toList

/-- A reply that is exactly a feedback marker with an empty section. -/
def c9aInput : List Char := "**Feedback:**".toList

/-- A reply that is a reasoning marker followed only by spaces. -/
def c9bInput : List Char := "**Reasoning for Score:**   ".toList

/-- A reply that is an improved-argument marker followed only by a newline. -/
def c9cInput : List Char := "**Improved Argument:**\n".toList

/-- Score marker with no separator before the digits. -/
def c10aInput : List Char := "**Rationality Score:**0.8".toList

/-- Score marker with two spaces before the digits. -/
def c10bInput : List Char := "**Rationality Score:**  0.8".toList

/-- Score marker with a tab before the digits. -/
def c10cInput : List Char := "**Rationality Score:**\t0.8".toList

/-- Score marker with a newline before the digits. -/
def c10dInput : List Char := "**Rationality Score:**\n0.8".toList

/-- Feedback marker separated from its content by newlines and spaces. -/
def c10eInput : List Char := "**Feedback:**\n\n   hello".toList

/-- Feedback marker with no whitespace before its content. -/
def c10fInput : List Char := "**Feedback:**hello".toList

/-! ### Basic facts about `matchesAt` and `findSub` -/

lemma matchesAt_append_left (n1 n2 : List Char) :
    ∀ l : List Char, matchesAt (n1 ++ n2) l = true → matchesAt n1 l = true := by
  induction n1 with
  | nil => intro l _; rfl
  | cons a as ih =>
    intro l h
    cases l with
    | nil => simp [matchesAt] at h
    | cons b bs =>
      simp only [List.cons_append, matchesAt, Bool.and_eq_true] at h ⊢
      exact ⟨h.1, ih bs h.2⟩

lemma matchesAt_getElem? (n : List Char) :
    ∀ (l : List Char) (k : Nat), matchesAt n l = true → k < n.length → l[k]? = n[k]?
  | l, k => by
    induction n generalizing l k with
    | nil => intro _ hk; simp at hk
    | cons a as ih =>
      intro h hk
      cases l with
      | nil => simp [matchesAt] at h
      | cons b bs =>
        simp only [matchesAt, Bool.and_eq_true, beq_iff_eq] at h
        cases k with
        | zero => simp [h.1]
        | succ m =>
          simp only [List.getElem?_cons_succ]
          exact ih bs m h.2 (by simpa using hk)

lemma findSub_cons_pos (n : List Char) (c : Char) (rest : List Char)
    (hm : matchesAt n (c :: rest) = true) : findSub n (c :: rest) = some 0 := by
  simp [findSub, hm]

lemma findSub_cons_neg (n : List Char) (c : Char) (rest : List Char)
    (hm : matchesAt n (c :: rest) = false) :
    findSub n (c :: rest) = Option.map (fun k => k + 1) (findSub n rest) := by
  simp [findSub, hm]

lemma findSub_matches (n : List Char) :
    ∀ (s : List Char) (i : Nat), findSub n s = some i → matchesAt n (s.drop i) = true := by
  intro s
  induction s with
  | nil =>
    intro i h
    cases n with
    | nil =>
      simp [findSub] at h
      subst h; rfl
    | cons c cs => simp [findSub] at h
  | cons c rest ih =>
    intro i h
    cases hm : matchesAt n (c :: rest) with
    | true =>
      rw [findSub_cons_pos n c rest hm] at h
      obtain rfl : (0 : Nat) = i := Option.some.inj h
      simpa using hm
    | false =>
      rw [findSub_cons_neg n c rest hm] at h
      cases hfx : findSub n rest with
      | none => rw [hfx] at h; simp at h
      | some k =>
        rw [hfx] at h
        simp only [Option.map_some'] at h
        obtain rfl : k + 1 = i := Option.some.inj h
        simpa [List.drop_succ_cons] using ih k hfx

lemma findSub_least (n : List Char) :
    ∀ (s : List Char) (i : Nat), findSub n s = some i →
      ∀ j, j < i → matchesAt n (s.drop j) = false := by
  intro s
  induction s with
  | nil =>
    intro i h j hj
    cases n with
    | nil => simp [findSub] at h; omega
    | cons c cs => simp [findSub] at h
  | cons c rest ih =>
    intro i h j hj
    cases hm : matchesAt n (c :: rest) with
    | true =>
      rw [findSub_cons_pos n c rest hm] at h
      obtain rfl : (0 : Nat) = i := Option.some.inj h
      omega
    | false =>
      rw [findSub_cons_neg n c rest hm] at h
      cases hfx : findSub n rest with
      | none => rw [hfx] at h; simp at h
      | some k =>
        rw [hfx] at h
        simp only [Option.map_some'] at h
        obtain rfl : k + 1 = i := Option.some.inj h
        cases j with
        | zero => simpa using hm
        | succ m =>
          simp only [List.drop_succ_cons]
          exact ih k hfx m (by omega)

lemma findSub_none (n : List Char) :
    ∀ (s : List Char), findSub n s = none → ∀ j, matchesAt n (s.drop j) = false := by
  intro s
  induction s with
  | nil =>
    intro h j
    cases n with
    | nil => simp [findSub] at h
    | cons c cs => simp [List.drop_nil, matchesAt]
  | cons c rest ih =>
    intro h j
    cases hm : matchesAt n (c :: rest) with
    | true => rw [findSub_cons_pos n c rest hm] at h; simp at h
    | false =>
      rw [findSub_cons_neg n c rest hm] at h
      have hfx : findSub n rest = none := by
        cases hfx : findSub n rest with
        | none => rfl
        | some k => rw [hfx] at h; simp at h
      cases j with
      | zero => simpa using hm
      | succ m =>
        simp only [List.drop_succ_cons]
        exact ih hfx m

lemma findSub_eq_some (n : List Char) :
    ∀ (i : Nat) (s : List Char), matchesAt n (s.drop i) = true →
      (∀ j, j < i → matchesAt n (s.drop j) = false) → findSub n s = some i := by
  intro i
  induction i with
  | zero =>
    intro s h1 _
    cases s with
    | nil =>
      cases n with
      | nil => rfl
      | cons c cs => simp [matchesAt] at h1
    | cons c rest =>
      rw [List.drop_zero] at h1
      exact findSub_cons_pos n c rest h1
  | succ i ih =>
    intro s h1 h2
    cases s with
    | nil =>
      have h0 := h2 0 (Nat.succ_pos i)
      simp only [List.drop_nil] at h0 h1
      simp [h1] at h0
    | cons c rest =>
      have h0 : matchesAt n (c :: rest) = false := by simpa using h2 0 (Nat.succ_pos i)
      have hrec : findSub n rest = some i := by
        apply ih rest
        · simpa [List.drop_succ_cons] using h1
        · intro j hj
          simpa [List.drop_succ_cons] using h2 (j + 1) (by omega)
      rw [findSub_cons_neg n c rest h0, hrec]
      rfl

lemma findSub_eq_none (n : List Char) :
    ∀ (s : List Char), (∀ j, matchesAt n (s.drop j) = false) → findSub n s = none := by
  intro s
  induction s with
  | nil =>
    intro h
    cases n with
    | nil =>
      have h0 := h 0
      rw [List.drop_nil] at h0
      exact absurd h0 (by simp [matchesAt])
    | cons c cs => rfl
  | cons c rest ih =>
    intro h
    have h0 : matchesAt n (c :: rest) = false := by simpa using h 0
    have hrec : findSub n rest = none := by
      apply ih
      intro j
      simpa [List.drop_succ_cons] using h (j + 1)
    rw [findSub_cons_neg n c rest h0, hrec]
    rfl

lemma findSub_drop (n s : List Char) (i k : Nat) (h : findSub n s = some i) (hk : k ≤ i) :
    findSub n (s.drop k) = some (i - k) := by
  apply findSub_eq_some
  · rw [List.drop_drop, Nat.add_sub_cancel' hk]
    exact findSub_matches n s i h
  · intro j hj
    rw [List.drop_drop]
    exact findSub_least n s i h (k + j) (by omega)

lemma findSub_drop_none (n s : List Char) (k : Nat) (h : findSub n s = none) :
    findSub n (s.drop k) = none := by
  apply findSub_eq_none
  intro j
  rw [List.drop_drop]
  exact findSub_none n s h (k + j)

/-! ### Whitespace runs, `stripChars`, and the `extractSection` characterization -/

lemma findSub_ws_append (c0 : Char) (nm : List Char) (run x : List Char)
    (hc0 : pySpace c0 = false) (hrun : ∀ c ∈ run, pySpace c = true) :
    findSub (c0 :: nm) (run ++ x) =
      Option.map (fun k => k + run.length) (findSub (c0 :: nm) x) := by
  induction run with
  | nil =>
    cases hfx : findSub (c0 :: nm) x <;> simp [hfx]
  | cons r rest ih =>
    have hr : pySpace r = true := hrun r (List.mem_cons_self r rest)
    have hne : (c0 == r) = false := by
      refine beq_eq_false_iff_ne.mpr fun hEq => ?_
      rw [hEq, hr] at hc0
      exact Bool.true_eq_false ▸ hc0.symm ▸ rfl
    have hmf : matchesAt (c0 :: nm) (r :: (rest ++ x)) = false := by
      simp [matchesAt, hne]
    rw [List.cons_append, findSub_cons_neg _ _ _ hmf,
      ih (fun c hc => hrun c (List.mem_cons_of_mem r hc))]
    cases hfx : findSub (c0 :: nm) x <;> simp [hfx, Nat.add_assoc]

lemma dropWhile_ws_append (run x : List Char) (h : ∀ c ∈ run, pySpace c = true) :
    (run ++ x).dropWhile pySpace = x.dropWhile pySpace := by
  induction run with
  | nil => simp
  | cons r rest ih =>
    rw [List.cons_append,
      List.dropWhile_cons_of_pos (h r (List.mem_cons_self r rest))]
    exact ih fun c hc => h c (List.mem_cons_of_mem r hc)

lemma stripChars_ws_append (run x : List Char) (h : ∀ c ∈ run, pySpace c = true) :
    stripChars (run ++ x) = stripChars x := by
  unfold stripChars
  rw [dropWhile_ws_append run x h]

lemma takeLen_append (l1 l2 : List Char) (j : Nat) :
    (l1 ++ l2).take (l1.length + j) = l1 ++ l2.take j := by
  induction l1 with
  | nil => simp
  | cons a l1 ih =>
    have harith : (a :: l1).length + j = (l1.length + j) + 1 := by
      simp [List.length_cons]; omega
    rw [List.cons_append, harith, List.take_succ_cons, ih, List.cons_append]

lemma forwardSpan_pos (term t : List Char) (j : Nat) (h : findSub term t = some j) :
    forwardSpan term t = t.take j := by
  unfold forwardSpan
  rw [h]

lemma forwardSpan_neg (term t : List Char) (h : findSub term t = none) :
    forwardSpan term t = t := by
  unfold forwardSpan
  rw [h]

lemma extractSection_found (marker : List Char) (c0 : Char) (nm : List Char)
    (dflt s : List Char) (i : Nat) (hc0 : pySpace c0 = false)
    (h : findSub marker s = some i) :
    extractSection marker (some (c0 :: nm)) dflt s =
      stripChars (forwardSpan (c0 :: nm) (s.drop (i + marker.length))) := by
  set a := s.drop (i + marker.length) with ha
  set run := a.takeWhile pySpace with hrun_def
  set body := a.dropWhile pySpace with hbody_def
  have hsplit : run ++ body = a := List.takeWhile_append_dropWhile pySpace a
  have hrun : ∀ c ∈ run, pySpace c = true := fun c hc => List.mem_takeWhile_imp hc
  have hfs : findSub (c0 :: nm) a =
      Option.map (fun k => k + run.length) (findSub (c0 :: nm) body) := by
    conv_lhs => rw [← hsplit]
    exact findSub_ws_append c0 nm run body hc0 hrun
  simp only [extractSection, h, ← ha, ← hbody_def]
  cases hb : findSub (c0 :: nm) body with
  | some j =>
    have hafter : findSub (c0 :: nm) a = some (j + run.length) := by
      rw [hfs, hb]; rfl
    rw [forwardSpan_pos (c0 :: nm) a (j + run.length) hafter]
    show stripChars (body.take j) = stripChars (a.take (j + run.length))
    conv_rhs => rw [← hsplit]
    rw [Nat.add_comm j run.length, takeLen_append run body j,
      stripChars_ws_append run (body.take j) hrun]
  | none =>
    have hafter : findSub (c0 :: nm) a = none := by
      rw [hfs, hb]; rfl
    rw [forwardSpan_neg (c0 :: nm) a hafter]
    show stripChars body = stripChars a
    conv_rhs => rw [← hsplit]
    rw [stripChars_ws_append run body hrun]

lemma extractSection_found_last (marker dflt s : List Char) (i : Nat)
    (h : findSub marker s = some i) :
    extractSection marker none dflt s = stripChars (s.drop (i + marker.length)) := by
  set a := s.drop (i + marker.length) with ha
  set run := a.takeWhile pySpace with hrun_def
  set body := a.dropWhile pySpace with hbody_def
  have hsplit : run ++ body = a := List.takeWhile_append_dropWhile pySpace a
  have hrun : ∀ c ∈ run, pySpace c = true := fun c hc => List.mem_takeWhile_imp hc
  simp only [extractSection, h, ← ha, ← hbody_def]
  show stripChars body = stripChars a
  conv_rhs => rw [← hsplit]
  rw [stripChars_ws_append run body hrun]

lemma extractSection_absent (marker : List Char) (next? : Option (List Char))
    (dflt s : List Char) (h : findSub marker s = none) :
    extractSection marker next? dflt s = dflt := by
  simp [extractSection, h]

/-! ### Facts about the score search -/

lemma findScore_cons_pos_some (c : Char) (rest : List Char) (q : ℚ)
    (hm : matchesAt scoreMkSp (c :: rest) = true)
    (hn : matchNumber ((c :: rest).drop scoreMkSp.length) = some q) :
    findScore (c :: rest) = some q := by
  simp [findScore, hm, hn]

lemma findScore_cons_pos_none (c : Char) (rest : List Char)
    (hm : matchesAt scoreMkSp (c :: rest) = true)
    (hn : matchNumber ((c :: rest).drop scoreMkSp.length) = none) :
    findScore (c :: rest) = findScore rest := by
  simp [findScore, hm, hn]

lemma findScore_cons_neg (c : Char) (rest : List Char)
    (hm : matchesAt scoreMkSp (c :: rest) = false) :
    findScore (c :: rest) = findScore rest := by
  simp [findScore, hm]

lemma findScore_eq_some :
    ∀ (i : Nat) (s : List Char) (q : ℚ),
      matchesAt scoreMkSp (s.drop i) = true →
      matchNumber (s.drop (i + scoreMkSp.length)) = some q →
      (∀ j, j < i → matchesAt scoreMkSp (s.drop j) = false) →
      findScore s = some q := by
  intro i
  induction i with
  | zero =>
    intro s q h1 h2 _
    cases s with
    | nil =>
      rw [List.drop_nil] at h1
      exact absurd h1 (by decide)
    | cons c rest =>
      rw [List.drop_zero] at h1
      rw [Nat.zero_add] at h2
      exact findScore_cons_pos_some c rest q h1 h2
  | succ i ih =>
    intro s q h1 h2 hlt
    cases s with
    | nil =>
      rw [List.drop_nil] at h1
      exact absurd h1 (by decide)
    | cons c rest =>
      have h0 : matchesAt scoreMkSp (c :: rest) = false := by
        simpa using hlt 0 (Nat.succ_pos i)
      rw [findScore_cons_neg c rest h0]
      apply ih rest q
      · simpa [List.drop_succ_cons] using h1
      · have harith : i + 1 + scoreMkSp.length = (i + scoreMkSp.length) + 1 := by omega
        rw [harith, List.drop_succ_cons] at h2
        exact h2
      · intro j hj
        simpa [List.drop_succ_cons] using hlt (j + 1) (by omega)

lemma findScore_eq_none :
    ∀ (s : List Char),
      (∀ j, matchesAt scoreMkSp (s.drop j) = false ∨
        matchNumber (s.drop (j + scoreMkSp.length)) = none) →
      findScore s = none := by
  intro s
  induction s with
  | nil => intro _; rfl
  | cons c rest ih =>
    intro h
    have hrest : findScore rest = none := by
      apply ih
      intro j
      rcases h (j + 1) with h' | h'
      · left; simpa [List.drop_succ_cons] using h'
      · right
        have harith : j + 1 + scoreMkSp.length = (j + scoreMkSp.length) + 1 := by omega
        rw [harith, List.drop_succ_cons] at h'
        exact h'
    rcases h 0 with h0 | h0
    · rw [List.drop_zero] at h0
      rw [findScore_cons_neg c rest h0, hrest]
    · rw [Nat.zero_add] at h0
      cases hm : matchesAt scoreMkSp (c :: rest) with
      | false => rw [findScore_cons_neg c rest hm, hrest]
      | true => rw [findScore_cons_pos_none c rest hm h0, hrest]

lemma matchNumber_nonneg (l : List Char) (q : ℚ) (h : matchNumber l = some q) : 0 ≤ q := by
  simp only [matchNumber] at h
  split at h
  · exact absurd h (by simp)
  · split at h
    · split at h
      · obtain rfl := Option.some.inj h
        positivity
      · obtain rfl := Option.some.inj h
        positivity
    · obtain rfl := Option.some.inj h
      positivity

lemma findScore_nonneg : ∀ (s : List Char) (q : ℚ), findScore s = some q → 0 ≤ q := by
  intro s
  induction s with
  | nil => intro q h; exact absurd h (by simp [findScore])
  | cons c rest ih =>
    intro q h
    cases hm : matchesAt scoreMkSp (c :: rest) with
    | false =>
      rw [findScore_cons_neg c rest hm] at h
      exact ih q h
    | true =>
      cases hn : matchNumber ((c :: rest).drop scoreMkSp.length) with
      | none =>
        rw [findScore_cons_pos_none c rest hm hn] at h
        exact ih q h
      | some q' =>
        rw [findScore_cons_pos_some c rest q' hm hn] at h
        obtain rfl := Option.some.inj h
        exact matchNumber_nonneg _ _ hn

lemma scoreMkSp_eq_append : scoreMkSp = scoreMkBare ++ [' '] := by decide

lemma extractSection_found_any (marker nm dflt s : List Char) (i : Nat)
    (hnm : (nm.head?.any fun c => !pySpace c) = true)
    (h : findSub marker s = some i) :
    extractSection marker (some nm) dflt s =
      stripChars (forwardSpan nm (s.drop (i + marker.length))) := by
  cases nm with
  | nil => simp at hnm
  | cons c0 nm' =>
    have hc0 : pySpace c0 = false := by simpa using hnm
    exact extractSection_found marker c0 nm' dflt s i hc0 h

lemma matchNumber_none_of_head (l : List Char)
    (h : (l.head?.any Char.isDigit) = false) : matchNumber l = none := by
  cases l with
  | nil => rfl
  | cons c t =>
    have hc : Char.isDigit c = false := by simpa using h
    simp [matchNumber, List.takeWhile_cons, hc]

/-! ### The claims -/

/-- Claim C1: the structured-feedback extractor is total — it is a plain
function producing a record whose four fields are always populated — and
for each field whose marker is absent from the input it substitutes the
field's fixed fallback value (`0.5`, `"No reasoning provided."`,
`"No feedback provided."`, `"No improved argument provided."`). -/
theorem claim_C1 (s : List Char) :
    (findSub scoreMkBare s = none →
      (evaluate_argument s).rationality_score = 1/2) ∧
    (findSub reasoningMk s = none →
      (evaluate_argument s).reason_for_score = defaultReason) ∧
    (findSub feedbackMk s = none →
      (evaluate_argument s).feedback = defaultFeedback) ∧
    (findSub improvedMk s = none →
      (evaluate_argument s).improved_argument = defaultImproved) := by
  refine ⟨?_, ?_, ?_, ?_⟩
  · intro h
    have hnone : findScore s = none := by
      apply findScore_eq_none
      intro j
      left
      cases hsp : matchesAt scoreMkSp (s.drop j) with
      | false => rfl
      | true =>
        have hb := findSub_none scoreMkBare s h j
        have htrue := matchesAt_append_left scoreMkBare [' '] (s.drop j)
          (by rw [← scoreMkSp_eq_append]; exact hsp)
        rw [hb] at htrue
        exact absurd htrue (by simp)
    simp only [evaluate_argument, hnone]
  · intro h
    show extractSection reasoningMk (some feedbackMk) defaultReason s = defaultReason
    exact extractSection_absent _ _ _ _ h
  · intro h
    show extractSection feedbackMk (some improvedMk) defaultFeedback s = defaultFeedback
    exact extractSection_absent _ _ _ _ h
  · intro h
    show extractSection improvedMk none defaultImproved s = defaultImproved
    exact extractSection_absent _ _ _ _ h

/-- Witness for C1 at the marker-free input `"hello"`: every field carries
its fallback. -/
theorem claim_C1_witness :
    (evaluate_argument ("hello".toList)).rationality_score = 1/2 ∧
    (evaluate_argument ("hello".toList)).reason_for_score = defaultReason ∧
    (evaluate_argument ("hello".toList)).feedback = defaultFeedback ∧
    (evaluate_argument ("hello".toList)).improved_argument = defaultImproved := by
  have h := claim_C1 ("hello".toList)
  exact ⟨h.1 (by decide), h.2.1 (by decide), h.2.2.1 (by decide), h.2.2.2 (by decide)⟩

/-- Claim C3: on the spec's worked example, the extractor returns the score
`0.9` and the three trimmed section texts. -/
theorem claim_C3 :
    (evaluate_argument c3input).rationality_score = 9/10 ∧
    (evaluate_argument c3input).reason_for_score = "Good logic".toList ∧
    (evaluate_argument c3input).feedback = "Add evidence".toList ∧
    (evaluate_argument c3input).improved_argument = "Refined text.".toList := by
  refine ⟨?_, by decide, by decide, by decide⟩
  have h : findScore c3input
      = some ((digitsToNat ['0'] : ℚ) + (digitsToNat ['9'] : ℚ) / (10 : ℚ) ^ (1 : ℕ)) := rfl
  have h0 : digitsToNat ['0'] = 0 := by decide
  have h9 : digitsToNat ['9'] = 9 := by decide
  simp only [evaluate_argument, h, h0, h9]
  norm_num

/-- Claim C4: on the empty input, every field carries its fallback value. -/
theorem claim_C4 :
    (evaluate_argument []).rationality_score = 1/2 ∧
    (evaluate_argument []).reason_for_score = defaultReason ∧
    (evaluate_argument []).feedback = defaultFeedback ∧
    (evaluate_argument []).improved_argument = defaultImproved :=
  ⟨rfl, by decide, by decide, by decide⟩

/-- Claim C5: a reply consisting only of the score marker and `0.8` yields
score `0.8` with the text fields at their defaults; and whenever no
parsable numeric token follows any occurrence of the score marker (in
particular when the marker is absent), the score defaults to `0.5`. -/
theorem claim_C5 :
    ((evaluate_argument c5input).rationality_score = 4/5 ∧
      (evaluate_argument c5input).reason_for_score = defaultReason ∧
      (evaluate_argument c5input).feedback = defaultFeedback ∧
      (evaluate_argument c5input).improved_argument = defaultImproved) ∧
    (∀ s : List Char,
      (∀ i, i < s.length → matchesAt scoreMkSp (s.drop i) = true →
        matchNumber (s.drop (i + scoreMkSp.length)) = none) →
      (evaluate_argument s).rationality_score = 1/2) := by
  constructor
  · refine ⟨?_, by decide, by decide, by decide⟩
    have h : findScore c5input
        = some ((digitsToNat ['0'] : ℚ) + (digitsToNat ['8'] : ℚ) / (10 : ℚ) ^ (1 : ℕ)) := rfl
    have h0 : digitsToNat ['0'] = 0 := by decide
    have h8 : digitsToNat ['8'] = 8 := by decide
    simp only [evaluate_argument, h, h0, h8]
    norm_num
  · intro s hs
    have hnone : findScore s = none := by
      apply findScore_eq_none
      intro j
      by_cases hj : j < s.length
      · cases hm : matchesAt scoreMkSp (s.drop j) with
        | false => exact Or.inl rfl
        | true => exact Or.inr (hs j hj hm)
      · left
        rw [List.drop_eq_nil_of_le (by omega)]
        decide
    simp only [evaluate_argument, hnone]

/-- Witness for C5's general part at a marker-free input. -/
theorem claim_C5_witness :
    (evaluate_argument ("score: none".toList)).rationality_score = 1/2 :=
  claim_C5.2 ("score: none".toList) (by decide)

/-- Claim C7: the extractor does not enforce the semantic bound `[0, 1]`:
the input `"**Rationality Score:** 7.5"` yields the score `7.5 > 1`, the
numeric token being accepted verbatim. -/
theorem claim_C7 :
    (evaluate_argument c7input).rationality_score = 15/2 ∧
    (1 : ℚ) < (evaluate_argument c7input).rationality_score := by
  have h : findScore c7input
      = some ((digitsToNat ['7'] : ℚ) + (digitsToNat ['5'] : ℚ) / (10 : ℚ) ^ (1 : ℕ)) := rfl
  have h7 : digitsToNat ['7'] = 7 := by decide
  have h5 : digitsToNat ['5'] = 5 := by decide
  constructor
  · simp only [evaluate_argument, h, h7, h5]
    norm_num
  · simp only [evaluate_argument, h, h7, h5]
    norm_num

/-- Claim C8: the extracted score is never negative — the score pattern
only accepts unsigned numerals, so the result is a parsed value `≥ 0` or
the default `0.5` — and a negative numeral after the marker (as in
`"**Rationality Score:** -0.5"`) yields the default `0.5`. -/
theorem claim_C8 :
    (∀ s : List Char, 0 ≤ (evaluate_argument s).rationality_score) ∧
    (evaluate_argument c8input).rationality_score = 1/2 := by
  constructor
  · intro s
    cases hf : findScore s with
    | none =>
      simp only [evaluate_argument, hf]
      norm_num
    | some q =>
      simp only [evaluate_argument, hf]
      exact findScore_nonneg s q hf
  · have h : findScore c8input = none := rfl
    simp only [evaluate_argument, h]

/-- Claim C9: text-field defaults are substituted only when the marker is
absent, not when the section is empty: a marker followed by nothing or
only whitespace yields the empty string, not the fallback sentence. -/
theorem claim_C9 :
    (evaluate_argument c9aInput).feedback = [] ∧
    ([] : List Char) ≠ defaultFeedback ∧
    (evaluate_argument c9bInput).reason_for_score = [] ∧
    ([] : List Char) ≠ defaultReason ∧
    (evaluate_argument c9cInput).improved_argument = [] ∧
    ([] : List Char) ≠ defaultImproved :=
  ⟨by decide, by decide, by decide, by decide, by decide, by decide⟩

set_option linter.unusedVariables false in
/-- Claim C2: for any input holding all four well-formed markers in order
— the score marker (with its single space) at its first occurrence
followed by a parsable numeral, and the three text markers at their first
occurrences, in order and non-overlapping — each text field is exactly the
sub-text between its marker and the next marker (end of input for the last
field) with surrounding whitespace trimmed, and the score is the numeral
parsed after the first score marker. -/
theorem claim_C2 (s : List Char) (i1 i2 i3 i4 : Nat) (q : ℚ)
    (h1 : findSub scoreMkSp s = some i1)
    (hq : matchNumber (s.drop (i1 + scoreMkSp.length)) = some q)
    (h2 : findSub reasoningMk s = some i2)
    (h3 : findSub feedbackMk s = some i3)
    (h4 : findSub improvedMk s = some i4)
    (ho1 : i1 + scoreMkSp.length ≤ i2)
    (ho2 : i2 + reasoningMk.length ≤ i3)
    (ho3 : i3 + feedbackMk.length ≤ i4) :
    (evaluate_argument s).rationality_score = q ∧
    (evaluate_argument s).reason_for_score =
      stripChars ((s.drop (i2 + reasoningMk.length)).take (i3 - (i2 + reasoningMk.length))) ∧
    (evaluate_argument s).feedback =
      stripChars ((s.drop (i3 + feedbackMk.length)).take (i4 - (i3 + feedbackMk.length))) ∧
    (evaluate_argument s).improved_argument =
      stripChars (s.drop (i4 + improvedMk.length)) := by
  refine ⟨?_, ?_, ?_, ?_⟩
  · have hscore := findScore_eq_some i1 s q (findSub_matches _ s i1 h1) hq
      (findSub_least _ s i1 h1)
    simp only [evaluate_argument, hscore]
  · show extractSection reasoningMk (some feedbackMk) defaultReason s = _
    rw [extractSection_found_any reasoningMk feedbackMk defaultReason s i2 (by decide) h2]
    have hdrop : findSub feedbackMk (s.drop (i2 + reasoningMk.length)) =
        some (i3 - (i2 + reasoningMk.length)) :=
      findSub_drop feedbackMk s i3 (i2 + reasoningMk.length) h3 ho2
    rw [forwardSpan_pos feedbackMk _ _ hdrop]
  · show extractSection feedbackMk (some improvedMk) defaultFeedback s = _
    rw [extractSection_found_any feedbackMk improvedMk defaultFeedback s i3 (by decide) h3]
    have hdrop : findSub improvedMk (s.drop (i3 + feedbackMk.length)) =
        some (i4 - (i3 + feedbackMk.length)) :=
      findSub_drop improvedMk s i4 (i3 + feedbackMk.length) h4 ho3
    rw [forwardSpan_pos improvedMk _ _ hdrop]
  · show extractSection improvedMk none defaultImproved s = _
    exact extractSection_found_last improvedMk defaultImproved s i4 h4

set_option maxRecDepth 10000 in
/-- Witness for C2 at the spec's worked example, whose markers sit at
indices 0, 28, 64 and 91. -/
theorem claim_C2_witness :
    (evaluate_argument c3input).rationality_score
        = (digitsToNat ['0'] : ℚ) + (digitsToNat ['9'] : ℚ) / (10 : ℚ) ^ (1 : ℕ) ∧
    (evaluate_argument c3input).reason_for_score =
      stripChars ((c3input.drop (28 + reasoningMk.length)).take
        (64 - (28 + reasoningMk.length))) ∧
    (evaluate_argument c3input).feedback =
      stripChars ((c3input.drop (64 + feedbackMk.length)).take
        (91 - (64 + feedbackMk.length))) ∧
    (evaluate_argument c3input).improved_argument =
      stripChars (c3input.drop (91 + improvedMk.length)) :=
  claim_C2 c3input 0 28 64 91 _ (by decide) rfl (by decide) (by decide) (by decide)
    (by decide) (by decide) (by decide)

/-- Claim C6: whatever the order of the markers in the input, each of the
three text fields resolves to its nearest valid forward span — the trimmed
text from its own first marker occurrence up to the next forward
occurrence of its terminating marker, or the end of input — and falls back
to its default exactly when its own marker is absent. -/
theorem claim_C6 (s : List Char) :
    (∀ i, findSub reasoningMk s = some i →
      (evaluate_argument s).reason_for_score =
        stripChars (forwardSpan feedbackMk (s.drop (i + reasoningMk.length)))) ∧
    (findSub reasoningMk s = none →
      (evaluate_argument s).reason_for_score = defaultReason) ∧
    (∀ i, findSub feedbackMk s = some i →
      (evaluate_argument s).feedback =
        stripChars (forwardSpan improvedMk (s.drop (i + feedbackMk.length)))) ∧
    (findSub feedbackMk s = none →
      (evaluate_argument s).feedback = defaultFeedback) ∧
    (∀ i, findSub improvedMk s = some i →
      (evaluate_argument s).improved_argument =
        stripChars (s.drop (i + improvedMk.length))) ∧
    (findSub improvedMk s = none →
      (evaluate_argument s).improved_argument = defaultImproved) := by
  refine ⟨?_, ?_, ?_, ?_, ?_, ?_⟩
  · intro i h
    show extractSection reasoningMk (some feedbackMk) defaultReason s = _
    exact extractSection_found_any reasoningMk feedbackMk defaultReason s i (by decide) h
  · intro h
    show extractSection reasoningMk (some feedbackMk) defaultReason s = _
    exact extractSection_absent _ _ _ _ h
  · intro i h
    show extractSection feedbackMk (some improvedMk) defaultFeedback s = _
    exact extractSection_found_any feedbackMk improvedMk defaultFeedback s i (by decide) h
  · intro h
    show extractSection feedbackMk (some improvedMk) defaultFeedback s = _
    exact extractSection_absent _ _ _ _ h
  · intro i h
    show extractSection improvedMk none defaultImproved s = _
    exact extractSection_found_last improvedMk defaultImproved s i h
  · intro h
    show extractSection improvedMk none defaultImproved s = _
    exact extractSection_absent _ _ _ _ h

/-- Witness for C6 at an input whose markers appear in reversed order
(improved-argument at 0, feedback at 25, reasoning at 41). -/
theorem claim_C6_witness :
    (evaluate_argument c6input).reason_for_score =
      stripChars (forwardSpan feedbackMk (c6input.drop (41 + reasoningMk.length))) ∧
    (evaluate_argument c6input).feedback =
      stripChars (forwardSpan improvedMk (c6input.drop (25 + feedbackMk.length))) ∧
    (evaluate_argument c6input).improved_argument =
      stripChars (c6input.drop (0 + improvedMk.length)) := by
  have h := claim_C6 c6input
  exact ⟨h.1 41 (by decide), h.2.2.1 25 (by decide), h.2.2.2.2.1 0 (by decide)⟩

/-- Claim C10: the numeral after the score marker is recognised only when
separated from it by exactly one space: whenever no occurrence of the bare
marker is followed by one space and then a digit, the score is the default
`0.5` — so a missing separator, two spaces, a tab, or a newline before the
digits all yield `0.5` — whereas the text-field markers tolerate any
(possibly empty) whitespace run before their content. -/
theorem claim_C10 :
    (∀ s : List Char,
      (∀ i, i < s.length → matchesAt scoreMkBare (s.drop i) = true →
        ¬(s[i + scoreMkBare.length]? = some ' ' ∧
          (s[i + scoreMkBare.length + 1]?.any Char.isDigit) = true)) →
      (evaluate_argument s).rationality_score = 1/2) ∧
    (evaluate_argument c10aInput).rationality_score = 1/2 ∧
    (evaluate_argument c10bInput).rationality_score = 1/2 ∧
    (evaluate_argument c10cInput).rationality_score = 1/2 ∧
    (evaluate_argument c10dInput).rationality_score = 1/2 ∧
    (evaluate_argument c10eInput).feedback = "hello".toList ∧
    (evaluate_argument c10fInput).feedback = "hello".toList := by
  refine ⟨?_, ?_, ?_, ?_, ?_, by decide, by decide⟩
  · intro s hs
    have hnone : findScore s = none := by
      apply findScore_eq_none
      intro j
      by_cases hj : j < s.length
      · cases hm : matchesAt scoreMkSp (s.drop j) with
        | false => exact Or.inl rfl
        | true =>
          right
          have hbare : matchesAt scoreMkBare (s.drop j) = true :=
            matchesAt_append_left scoreMkBare [' '] (s.drop j)
              (by rw [← scoreMkSp_eq_append]; exact hm)
          have hspace : s[j + scoreMkBare.length]? = some ' ' := by
            have hget := matchesAt_getElem? scoreMkSp (s.drop j) scoreMkBare.length hm
              (by decide)
            rw [List.getElem?_drop] at hget
            rw [hget]
            decide
          have hnd : (s[j + scoreMkBare.length + 1]?.any Char.isDigit) = false := by
            by_contra hB
            exact hs j hj hbare ⟨hspace, by simpa using hB⟩
          have hlen : j + scoreMkSp.length = j + scoreMkBare.length + 1 := by
            have e1 : scoreMkSp.length = 23 := by decide
            have e2 : scoreMkBare.length = 22 := by decide
            omega
          rw [hlen]
          apply matchNumber_none_of_head
          rw [List.head?_eq_getElem?, List.getElem?_drop, Nat.add_zero]
          exact hnd
      · left
        rw [List.drop_eq_nil_of_le (by omega)]
        decide
    simp only [evaluate_argument, hnone]
  · have h : findScore c10aInput = none := rfl
    simp only [evaluate_argument, h]
  · have h : findScore c10bInput = none := rfl
    simp only [evaluate_argument, h]
  · have h : findScore c10cInput = none := rfl
    simp only [evaluate_argument, h]
  · have h : findScore c10dInput = none := rfl
    simp only [evaluate_argument, h]

/-- Witness for C10's general part at the two-space input. -/
theorem claim_C10_witness :
    (evaluate_argument c10bInput).rationality_score = 1/2 :=
  claim_C10.1 c10bInput (by decide)

end DebateMain
